import Mathlib

/-!
# Verification of the tagged_fs repository

Shallow embedding of the tagged filesystem driver (`tag_ops.py`,
`utils.py`, `tagged_fs.py`) and proofs about its stated behaviour.

* The tag-query engine (`tag_ops.py`) parses a query string with CPython's
  `ast.parse` and evaluates the resulting expression tree against the tag
  directory.  We embed the fragment of Python's expression grammar the
  engine accepts (non-keyword ASCII identifiers combined with the binary
  operators `+`, `-`, `&`, `^`): CPython parses these with `+`/`-` binding
  more tightly than `&`, which binds more tightly than `^`, each level
  associating to the left.  Inputs outside this fragment (keywords,
  literals, parentheses, other operators) make the Python code raise
  (either a `SyntaxError` from `ast.parse` or an `AttributeError` from
  `parseValue` returning `None`); the embedding collapses every such
  failure to `none`.
* Tag membership is read from the host filesystem (one directory per tag,
  one marker subdirectory per member inode).  We embed the tag directory
  as an association list from tag name to the finite set of member inodes,
  and file storage as an association list from inode to (filename,
  content bytes).
-/

namespace TaggedFs

/-! ## Tag index: the `tags` directory (one subdirectory per tag, one
inode-named marker directory per member) -/

/-- The `tags` directory: each entry is a tag directory (its name) holding
the set of inode marker subdirectories (`UnaryTagQuery.eval` reads the
members of tag `t` with `os.listdir(tag_folder/t)`). -/
abbrev TagIndex := List (String × Finset ℕ)

/-- Membership lookup: `some` of the member set when the tag's directory
exists, `none` when `os.path.isdir` fails (`UnaryTagQuery.eval` then raises
`NotADirectoryError`). -/
def membersOf (idx : TagIndex) (t : String) : Option (Finset ℕ) :=
  (idx.find? (fun p => p.1 == t)).map (fun p => p.2)

/-! ## Query AST (`tag_ops.py`: `UnaryTagQuery` / `BinTagQuery`) -/

/-- The four binary operators of `BinTagQuery.VALID_OPS`. -/
inductive TagOp : Type
  | union      -- "+", in either
  | intersect  -- "&", in both
  | diff       -- "-", from left but not right
  | symdiff    -- "^", from left or right but not both
deriving DecidableEq, Repr

/-- A parsed tag query: `UnaryTagQuery` (one tag name) or `BinTagQuery`
(left, right, operator). -/
inductive TagQuery : Type
  | leaf (tag : String)
  | bin (left right : TagQuery) (op : TagOp)
deriving DecidableEq, Repr

/-- The one evaluation failure of `tag_ops.py`: `UnaryTagQuery.eval` raises
`NotADirectoryError("No directory for tag: …")` when the tag's directory is
absent. -/
inductive QueryError : Type
  | unknownTag (tag : String)
deriving DecidableEq, Repr

instance exceptDecidableEq {ε α : Type} [DecidableEq ε] [DecidableEq α] :
    DecidableEq (Except ε α) := fun x y =>
  match x, y with
  | .ok a, .ok b =>
    if h : a = b then .isTrue (h ▸ rfl) else .isFalse (fun he => h (Except.ok.inj he))
  | .error e, .error f =>
    if h : e = f then .isTrue (h ▸ rfl) else .isFalse (fun he => h (Except.error.inj he))
  | .ok _, .error _ => .isFalse (fun he => Except.noConfusion he)
  | .error _, .ok _ => .isFalse (fun he => Except.noConfusion he)

/-- The set operation `BinTagQuery.eval` performs for each operator
(Python's `| & - ^` on `set`). -/
def applyOp : TagOp → Finset ℕ → Finset ℕ → Finset ℕ
  | .union, l, r => l ∪ r
  | .intersect, l, r => l ∩ r
  | .diff, l, r => l \ r
  | .symdiff, l, r => (l \ r) ∪ (r \ l)

/-- Evaluation, `TagQuery.eval`: a leaf reads the tag's member set (raising when the
tag directory is missing, `UnaryTagQuery.eval`); a binary node evaluates
its left operand, then its right, then applies the operator
(`BinTagQuery.eval`); a raise in either operand propagates. -/
def TagQuery.eval : TagQuery → TagIndex → Except QueryError (Finset ℕ)
  | .leaf t, idx =>
    match membersOf idx t with
    | none => .error (.unknownTag t)
    | some s => .ok s
  | .bin l r op, idx =>
    match l.eval idx with
    | .error e => .error e
    | .ok ls =>
      match r.eval idx with
      | .error e => .error e
      | .ok rs => .ok (applyOp op ls rs)

/-- Whether the AST has a leaf naming `t`. -/
def TagQuery.mentions : TagQuery → String → Bool
  | .leaf tag, t => tag == t
  | .bin l r _, t => l.mentions t || r.mentions t

/-! ## Tokenizer for the accepted query fragment

`TagQueryParser.__init__` hands the query string to CPython's `ast.parse`.
On the fragment the engine accepts, the lexical grammar is: maximal runs
of identifier characters (ASCII letters, digits, `_`, starting with a
non-digit) that are not Python keywords, the four operator characters, and
whitespace between tokens. -/

/-- A character that may start a Python identifier (ASCII fragment). -/
def isIdentStart (c : Char) : Bool := c.isAlpha || c == '_'

/-- A character that may continue a Python identifier (ASCII fragment). -/
def isIdentChar (c : Char) : Bool := c.isAlphanum || c == '_'

/-- Python keywords: `ast.parse` refuses them as plain expression names
(`True`/`False`/`None` parse as constants, which `parseValue` then turns
into `None`, crashing evaluation). -/
def pyKeywords : List String :=
  ["False", "None", "True", "and", "as", "assert", "async", "await",
   "break", "class", "continue", "def", "del", "elif", "else", "except",
   "finally", "for", "global", "if", "import", "in", "is", "lambda",
   "nonlocal", "not", "or", "pass", "raise", "return", "try", "while",
   "with", "yield"]

/-- Tokens of the accepted fragment. -/
inductive Token : Type
  | ident (s : String)
  | plus | minus | amp | caret
deriving DecidableEq, Repr

/-- Longest prefix of identifier characters, and the rest. -/
def takeIdent : List Char → List Char × List Char
  | [] => ([], [])
  | c :: cs =>
    if isIdentChar c then
      let p := takeIdent cs
      (c :: p.1, p.2)
    else ([], c :: cs)

/-- One fuel unit per token: the fuel argument only bounds recursion depth
(every call site supplies at least the input length, which suffices since
each step consumes at least one character). -/
def tokenizeAux : ℕ → List Char → Option (List Token)
  | _, [] => some []
  | 0, _ :: _ => none
  | fuel + 1, c :: cs =>
    if c == '+' then (tokenizeAux fuel cs).map (fun ts => Token.plus :: ts)
    else if c == '-' then (tokenizeAux fuel cs).map (fun ts => Token.minus :: ts)
    else if c == '&' then (tokenizeAux fuel cs).map (fun ts => Token.amp :: ts)
    else if c == '^' then (tokenizeAux fuel cs).map (fun ts => Token.caret :: ts)
    else if c == ' ' || c == '\t' then tokenizeAux fuel cs
    else if isIdentStart c then
      let p := takeIdent cs
      let name : String := ⟨c :: p.1⟩
      if pyKeywords.contains name then none
      else (tokenizeAux fuel p.2).map (fun ts => Token.ident name :: ts)
    else none

/-- Tokenize a query string (`none` = the Python code raises instead of
returning a result set). -/
def tokenize (s : String) : Option (List Token) :=
  tokenizeAux s.data.length s.data

/-! ## Parser

CPython's expression grammar, restricted to the fragment: `^` has the
lowest precedence of the four operators, then `&`, then `+`/`-`; each
level is left-associative.  `TagQueryParser.parseBinOp` maps `ast.Add` to
union, `ast.BitAnd` to intersection, `ast.Sub` to difference and
`ast.BitXor` to symmetric difference, recursing into both operands;
`parseUnaryOp` turns an `ast.Name` into a leaf. -/

/-- A leaf: one identifier token. -/
def parseAtom : List Token → Option (TagQuery × List Token)
  | Token.ident s :: r => some (.leaf s, r)
  | _ => none

/-- Left-associated chain of `+`/`-` (highest of the three levels). -/
def parseArithAux : ℕ → TagQuery → List Token → Option (TagQuery × List Token)
  | _, acc, [] => some (acc, [])
  | 0, _, _ :: _ => none
  | fuel + 1, acc, Token.plus :: r =>
    match parseAtom r with
    | some (rhs, r') => parseArithAux fuel (.bin acc rhs .union) r'
    | none => none
  | fuel + 1, acc, Token.minus :: r =>
    match parseAtom r with
    | some (rhs, r') => parseArithAux fuel (.bin acc rhs .diff) r'
    | none => none
  | _ + 1, acc, t :: r => some (acc, t :: r)

def parseArith (fuel : ℕ) (ts : List Token) : Option (TagQuery × List Token) :=
  match parseAtom ts with
  | some (q, r) => parseArithAux fuel q r
  | none => none

/-- Left-associated chain of `&` over `+`/`-` chains. -/
def parseAndAux : ℕ → TagQuery → List Token → Option (TagQuery × List Token)
  | _, acc, [] => some (acc, [])
  | 0, _, _ :: _ => none
  | fuel + 1, acc, Token.amp :: r =>
    match parseArith fuel r with
    | some (rhs, r') => parseAndAux fuel (.bin acc rhs .intersect) r'
    | none => none
  | _ + 1, acc, t :: r => some (acc, t :: r)

def parseAnd (fuel : ℕ) (ts : List Token) : Option (TagQuery × List Token) :=
  match parseArith fuel ts with
  | some (q, r) => parseAndAux fuel q r
  | none => none

/-- Left-associated chain of `^` over `&` chains (lowest precedence). -/
def parseXorAux : ℕ → TagQuery → List Token → Option (TagQuery × List Token)
  | _, acc, [] => some (acc, [])
  | 0, _, _ :: _ => none
  | fuel + 1, acc, Token.caret :: r =>
    match parseAnd fuel r with
    | some (rhs, r') => parseXorAux fuel (.bin acc rhs .symdiff) r'
    | none => none
  | _ + 1, acc, t :: r => some (acc, t :: r)

def parseXor (fuel : ℕ) (ts : List Token) : Option (TagQuery × List Token) :=
  match parseAnd fuel ts with
  | some (q, r) => parseXorAux fuel q r
  | none => none

/-- Parsing, `TagQueryParser(expr_str).parse()`: tokenize, parse the whole token
list as one expression (`ast.parse` rejects trailing input). -/
def parseTagQuery (s : String) : Option TagQuery :=
  match tokenize s with
  | some ts =>
    match parseXor ts.length ts with
    | some (q, []) => some q
    | _ => none
  | none => none

/-- Query pipeline, `get_query_inodes`: parse, then evaluate against the tag directory
(`none` = the parser raised; `some (.error _)` = evaluation raised). -/
def evaluateQuery (s : String) (idx : TagIndex) :
    Option (Except QueryError (Finset ℕ)) :=
  (parseTagQuery s).map (fun q => q.eval idx)

/-- A plain (non-keyword) Python identifier over the ASCII fragment: the
tag names the query grammar can mention. -/
def isPyIdent (s : String) : Bool :=
  match s.data with
  | [] => false
  | c :: cs => isIdentStart c && cs.all isIdentChar && !(pyKeywords.contains s)

/-- The source character of each operator (`BinTagQuery.VALID_OPS`). -/
def opChar : TagOp → Char
  | .union => '+'
  | .diff => '-'
  | .intersect => '&'
  | .symdiff => '^'

/-- The operator as a one-character string. -/
def opStr (o : TagOp) : String := ⟨[opChar o]⟩

/-- The operator's token. -/
def opTok : TagOp → Token
  | .union => .plus
  | .diff => .minus
  | .intersect => .amp
  | .symdiff => .caret

/-- CPython's precedence level of each operator within the fragment
(`+`/`-` over `&` over `^`); bigger binds tighter. -/
def opPrec : TagOp → ℕ
  | .union => 2
  | .diff => 2
  | .intersect => 1
  | .symdiff => 0

/-! ### Tokenizer lemmas -/

theorem takeIdent_suffix_length (cs : List Char) :
    (takeIdent cs).2.length ≤ cs.length := by
  induction cs with
  | nil => simp [takeIdent]
  | cons c cs ih =>
    by_cases h : isIdentChar c = true
    · simpa [takeIdent, h] using Nat.le_succ_of_le ih
    · simp [takeIdent, h]

theorem takeIdent_append (xs : List Char) (c : Char) (r : List Char)
    (hxs : xs.all isIdentChar = true) (hc : isIdentChar c = false) :
    takeIdent (xs ++ c :: r) = (xs, c :: r) := by
  induction xs with
  | nil => simp [takeIdent, hc]
  | cons x xs ih =>
    simp only [List.all_cons, Bool.and_eq_true] at hxs
    simp [takeIdent, hxs.1, ih hxs.2]

theorem takeIdent_all (xs : List Char) (hxs : xs.all isIdentChar = true) :
    takeIdent xs = (xs, []) := by
  induction xs with
  | nil => simp [takeIdent]
  | cons x xs ih =>
    simp only [List.all_cons, Bool.and_eq_true] at hxs
    simp [takeIdent, hxs.1, ih hxs.2]

/-- An identifier-start character is none of the tokenizer's special
characters. -/
theorem identStart_not_special (c : Char) (h : isIdentStart c = true) :
    (c == '+') = false ∧ (c == '-') = false ∧ (c == '&') = false ∧
      (c == '^') = false ∧ (c == ' ') = false ∧ (c == '\t') = false := by
  refine ⟨?_, ?_, ?_, ?_, ?_, ?_⟩ <;>
    · rw [beq_eq_false_iff_ne]
      rintro rfl
      exact absurd h (by decide)

theorem tokenizeAux_nil (f : ℕ) : tokenizeAux f [] = some [] := by
  cases f <;> simp [tokenizeAux]

/-- Fuel irrelevance: any fuel at least the input length gives the same
tokens. -/
theorem tokenizeAux_fuel : ∀ (f g : ℕ) (l : List Char),
    l.length ≤ f → l.length ≤ g → tokenizeAux f l = tokenizeAux g l := by
  intro f
  induction f with
  | zero =>
    intro g l hf _
    have hl : l = [] := List.length_eq_zero.mp (Nat.le_zero.mp hf)
    subst hl
    simp [tokenizeAux_nil]
  | succ f ih =>
    intro g l hf hg
    cases l with
    | nil => simp [tokenizeAux_nil]
    | cons c cs =>
      cases g with
      | zero => simp at hg
      | succ g =>
        have hf' : cs.length ≤ f := by simpa using hf
        have hg' : cs.length ≤ g := by simpa using hg
        have hp : (takeIdent cs).2.length ≤ cs.length := takeIdent_suffix_length cs
        simp only [tokenizeAux]
        by_cases h1 : (c == '+') = true
        · simp [h1, ih g cs hf' hg']
        · by_cases h2 : (c == '-') = true
          · simp [h1, h2, ih g cs hf' hg']
          · by_cases h3 : (c == '&') = true
            · simp [h1, h2, h3, ih g cs hf' hg']
            · by_cases h4 : (c == '^') = true
              · simp [h1, h2, h3, h4, ih g cs hf' hg']
              · by_cases h5 : (c == ' ' || c == '\t') = true
                · simp [h1, h2, h3, h4, h5, ih g cs hf' hg']
                · by_cases h6 : isIdentStart c = true
                  · simp only [h1, h2, h3, h4, h5, h6, Bool.false_eq_true,
                      if_false, if_true]
                    rw [ih g (takeIdent cs).2 (le_trans hp hf') (le_trans hp hg')]
                  · simp [h1, h2, h3, h4, h5, h6]

/-- Tokenizing with fuel equal to the input length (what `tokenize`
does). -/
def tokenizeL (l : List Char) : Option (List Token) :=
  tokenizeAux l.length l

theorem tokenize_eq_tokenizeL (s : String) : tokenize s = tokenizeL s.data := rfl

/-- Step: an identifier run followed by a non-identifier character. -/
theorem tokenizeL_ident_mid (c : Char) (cs : List Char) (d : Char) (r : List Char)
    (hc : isIdentStart c = true) (hcs : cs.all isIdentChar = true)
    (hd : isIdentChar d = false)
    (hkw : pyKeywords.contains (⟨c :: cs⟩ : String) = false) :
    tokenizeL (c :: (cs ++ d :: r)) =
      (tokenizeL (d :: r)).map (fun ts => Token.ident ⟨c :: cs⟩ :: ts) := by
  obtain ⟨n1, n2, n3, n4, n5, n6⟩ := identStart_not_special c hc
  have hkw' : (⟨c :: cs⟩ : String) ∉ pyKeywords := by simpa using hkw
  show tokenizeAux ((cs ++ d :: r).length + 1) (c :: (cs ++ d :: r)) = _
  simp only [tokenizeAux, n1, n2, n3, n4, n5, n6, Bool.or_self, Bool.false_eq_true,
    if_false, hc, if_true, takeIdent_append cs d r hcs hd, hkw]
  rw [tokenizeAux_fuel (cs ++ d :: r).length (d :: r).length (d :: r)
    (by simp) le_rfl]
  rfl

/-- Step: a final identifier run. -/
theorem tokenizeL_ident_last (c : Char) (cs : List Char)
    (hc : isIdentStart c = true) (hcs : cs.all isIdentChar = true)
    (hkw : pyKeywords.contains (⟨c :: cs⟩ : String) = false) :
    tokenizeL (c :: cs) = some [Token.ident ⟨c :: cs⟩] := by
  obtain ⟨n1, n2, n3, n4, n5, n6⟩ := identStart_not_special c hc
  have hkw' : (⟨c :: cs⟩ : String) ∉ pyKeywords := by simpa using hkw
  show tokenizeAux (cs.length + 1) (c :: cs) = _
  simp [tokenizeAux, n1, n2, n3, n4, n5, n6, hc, takeIdent_all cs hcs, hkw, hkw',
    tokenizeAux_nil]

/-- Step: an operator character. -/
theorem tokenizeL_op (o : TagOp) (r : List Char) :
    tokenizeL (opChar o :: r) = (tokenizeL r).map (fun ts => opTok o :: ts) := by
  show tokenizeAux (r.length + 1) (opChar o :: r) = _
  cases o <;> simp [tokenizeAux, opChar, opTok, tokenizeL]

theorem string_data_append (s t : String) : (s ++ t).data = s.data ++ t.data := rfl

/-- Splitting a Python identifier string into its head character and
tail. -/
theorem isPyIdent_parts (A : String) (hA : isPyIdent A = true) :
    ∃ c cs, A = ⟨c :: cs⟩ ∧ isIdentStart c = true ∧ cs.all isIdentChar = true ∧
      pyKeywords.contains (⟨c :: cs⟩ : String) = false := by
  obtain ⟨data⟩ := A
  cases data with
  | nil => simp [isPyIdent] at hA
  | cons c cs =>
    simp only [isPyIdent, Bool.and_eq_true, Bool.not_eq_true'] at hA
    exact ⟨c, cs, rfl, hA.1.1, hA.1.2, hA.2⟩

/-- Tokens of `A OP B` for identifiers `A`, `B`. -/
theorem tokenize_chain2 (A B : String) (o : TagOp)
    (hA : isPyIdent A = true) (hB : isPyIdent B = true) :
    tokenize (A ++ opStr o ++ B) = some [.ident A, opTok o, .ident B] := by
  obtain ⟨a, as, rfl, ha1, ha2, ha3⟩ := isPyIdent_parts A hA
  obtain ⟨b, bs, rfl, hb1, hb2, hb3⟩ := isPyIdent_parts B hB
  have hop : isIdentChar (opChar o) = false := by cases o <;> decide
  rw [tokenize_eq_tokenizeL]
  have hdata : ((⟨a :: as⟩ : String) ++ opStr o ++ ⟨b :: bs⟩).data =
      a :: (as ++ opChar o :: (b :: bs)) := by
    simp [string_data_append, opStr]
  rw [hdata, tokenizeL_ident_mid a as (opChar o) (b :: bs) ha1 ha2 hop ha3,
    tokenizeL_op, tokenizeL_ident_last b bs hb1 hb2 hb3]
  rfl

/-- Tokens of `A OP1 B OP2 C` for identifiers `A`, `B`, `C`. -/
theorem tokenize_chain3 (A B C : String) (o1 o2 : TagOp)
    (hA : isPyIdent A = true) (hB : isPyIdent B = true)
    (hC : isPyIdent C = true) :
    tokenize (A ++ opStr o1 ++ B ++ opStr o2 ++ C) =
      some [.ident A, opTok o1, .ident B, opTok o2, .ident C] := by
  obtain ⟨a, as, rfl, ha1, ha2, ha3⟩ := isPyIdent_parts A hA
  obtain ⟨b, bs, rfl, hb1, hb2, hb3⟩ := isPyIdent_parts B hB
  obtain ⟨c, cs, rfl, hc1, hc2, hc3⟩ := isPyIdent_parts C hC
  have hop1 : isIdentChar (opChar o1) = false := by cases o1 <;> decide
  have hop2 : isIdentChar (opChar o2) = false := by cases o2 <;> decide
  rw [tokenize_eq_tokenizeL]
  have hdata :
      ((⟨a :: as⟩ : String) ++ opStr o1 ++ ⟨b :: bs⟩ ++ opStr o2 ++ ⟨c :: cs⟩).data =
        a :: (as ++ opChar o1 :: (b :: (bs ++ opChar o2 :: (c :: cs)))) := by
    simp [string_data_append, opStr]
  rw [hdata, tokenizeL_ident_mid a as (opChar o1) _ ha1 ha2 hop1 ha3,
    tokenizeL_op]
  have : tokenizeL (b :: (bs ++ opChar o2 :: (c :: cs))) =
      (tokenizeL (opChar o2 :: (c :: cs))).map
        (fun ts => Token.ident ⟨b :: bs⟩ :: ts) :=
    tokenizeL_ident_mid b bs (opChar o2) (c :: cs) hb1 hb2 hop2 hb3
  rw [this, tokenizeL_op, tokenizeL_ident_last c cs hc1 hc2 hc3]
  rfl

/-! ### Parser lemmas -/

theorem parse_tokens2 (A B : String) (o : TagOp) :
    parseXor 3 [.ident A, opTok o, .ident B] =
      some (.bin (.leaf A) (.leaf B) o, []) := by
  cases o <;> rfl

/-- Three-identifier chains: higher precedence on the right operator nests
right, otherwise the chain nests left. -/
theorem parse_tokens3 (A B C : String) (o1 o2 : TagOp) :
    parseXor 5 [.ident A, opTok o1, .ident B, opTok o2, .ident C] =
      some ((if opPrec o1 < opPrec o2
        then .bin (.leaf A) (.bin (.leaf B) (.leaf C) o2) o1
        else .bin (.bin (.leaf A) (.leaf B) o1) (.leaf C) o2), []) := by
  cases o1 <;> cases o2 <;> rfl

/-- Parse of `A OP B`. -/
theorem parseTagQuery_chain2 (A B : String) (o : TagOp)
    (hA : isPyIdent A = true) (hB : isPyIdent B = true) :
    parseTagQuery (A ++ opStr o ++ B) = some (.bin (.leaf A) (.leaf B) o) := by
  unfold parseTagQuery
  rw [tokenize_chain2 A B o hA hB]
  simpa using congrArg (fun r => match r with
    | some (q, []) => some q
    | _ => none : Option (TagQuery × List Token) → Option TagQuery)
    (parse_tokens2 A B o)

/-- Parse of `A OP1 B OP2 C`. -/
theorem parseTagQuery_chain3 (A B C : String) (o1 o2 : TagOp)
    (hA : isPyIdent A = true) (hB : isPyIdent B = true)
    (hC : isPyIdent C = true) :
    parseTagQuery (A ++ opStr o1 ++ B ++ opStr o2 ++ C) =
      some (if opPrec o1 < opPrec o2
        then .bin (.leaf A) (.bin (.leaf B) (.leaf C) o2) o1
        else .bin (.bin (.leaf A) (.leaf B) o1) (.leaf C) o2) := by
  unfold parseTagQuery
  rw [tokenize_chain3 A B C o1 o2 hA hB hC]
  by_cases h : opPrec o1 < opPrec o2
  · have := parse_tokens3 A B C o1 o2
    rw [if_pos h] at this
    simp only [List.length_cons, List.length_nil, this, if_pos h]
  · have := parse_tokens3 A B C o1 o2
    rw [if_neg h] at this
    simp only [List.length_cons, List.length_nil, this, if_neg h]

/-! ### Evaluation lemmas -/

/-- Convenience: a symmetric difference written the two usual ways. -/
theorem symdiff_as_union_sdiff_inter (L R : Finset ℕ) :
    (L \ R) ∪ (R \ L) = (L ∪ R) \ (L ∩ R) := by
  ext a
  simp only [Finset.mem_union, Finset.mem_sdiff, Finset.mem_inter, not_and]
  tauto

/-- Evaluating `A OP B` on an index where both tags exist. -/
theorem evaluateQuery_chain2 (A B : String) (idx : TagIndex) (L R : Finset ℕ)
    (o : TagOp) (hA : isPyIdent A = true) (hB : isPyIdent B = true)
    (hL : membersOf idx A = some L) (hR : membersOf idx B = some R) :
    evaluateQuery (A ++ opStr o ++ B) idx = some (.ok (applyOp o L R)) := by
  unfold evaluateQuery
  rw [parseTagQuery_chain2 A B o hA hB]
  simp [TagQuery.eval, hL, hR]

/-- An evaluation error always names a tag whose directory is absent:
the only raise in `TagQuery.eval` is `UnaryTagQuery.eval`'s
`NotADirectoryError`. -/
theorem eval_error_unknown (q : TagQuery) : ∀ (idx : TagIndex) (u : String),
    q.eval idx = .error (.unknownTag u) → membersOf idx u = none := by
  induction q with
  | leaf t =>
    intro idx u h
    simp only [TagQuery.eval] at h
    split at h
    · next hm =>
      simp only [Except.error.injEq, QueryError.unknownTag.injEq] at h
      subst h
      exact hm
    · next => simp at h
  | bin l r op ihl ihr =>
    intro idx u h
    simp only [TagQuery.eval] at h
    split at h
    · next e hl =>
      simp only [Except.error.injEq] at h
      subst h
      exact ihl idx u hl
    · next ls hl =>
      split at h
      · next e hr =>
        simp only [Except.error.injEq] at h
        subst h
        exact ihr idx u hr
      · next => simp at h

/-- A query mentioning an absent tag evaluates to an `unknownTag` raise
(possibly naming a different absent tag, when several leaves are
absent: evaluation raises on the first one reached). -/
theorem eval_error_of_missing_leaf (q : TagQuery) : ∀ (idx : TagIndex) (t : String),
    q.mentions t = true → membersOf idx t = none →
    ∃ u, membersOf idx u = none ∧ q.eval idx = .error (.unknownTag u) := by
  induction q with
  | leaf s =>
    intro idx t hm hnone
    simp only [TagQuery.mentions, beq_iff_eq] at hm
    subst hm
    exact ⟨s, hnone, by simp [TagQuery.eval, hnone]⟩
  | bin l r op ihl ihr =>
    intro idx t hm hnone
    simp only [TagQuery.mentions, Bool.or_eq_true] at hm
    cases hm with
    | inl hml =>
      obtain ⟨u, hu, he⟩ := ihl idx t hml hnone
      exact ⟨u, hu, by simp [TagQuery.eval, he]⟩
    | inr hmr =>
      cases hl : l.eval idx with
      | error e =>
        cases e with
        | unknownTag v =>
          exact ⟨v, eval_error_unknown l idx v hl, by simp [TagQuery.eval, hl]⟩
      | ok ls =>
        obtain ⟨u, hu, he⟩ := ihr idx t hmr hnone
        exact ⟨u, hu, by simp [TagQuery.eval, hl, he]⟩

/-! ## Claim theorems for the query engine -/

/-- C1: for tags `A`, `B` present in the index with member sets `L`, `R`,
the query `A+B` evaluates to `L ∪ R`, `A&B` to `L ∩ R`, `A-B` to `L \ R`
and `A^B` to the symmetric difference `(L ∪ R) \ (L ∩ R)`. -/
theorem c1_binary_query_set_algebra (A B : String) (idx : TagIndex)
    (L R : Finset ℕ) (hA : isPyIdent A = true) (hB : isPyIdent B = true)
    (hL : membersOf idx A = some L) (hR : membersOf idx B = some R) :
    evaluateQuery (A ++ "+" ++ B) idx = some (.ok (L ∪ R)) ∧
    evaluateQuery (A ++ "&" ++ B) idx = some (.ok (L ∩ R)) ∧
    evaluateQuery (A ++ "-" ++ B) idx = some (.ok (L \ R)) ∧
    evaluateQuery (A ++ "^" ++ B) idx = some (.ok ((L ∪ R) \ (L ∩ R))) := by
  refine ⟨?_, ?_, ?_, ?_⟩
  · exact evaluateQuery_chain2 A B idx L R .union hA hB hL hR
  · exact evaluateQuery_chain2 A B idx L R .intersect hA hB hL hR
  · exact evaluateQuery_chain2 A B idx L R .diff hA hB hL hR
  · have h := evaluateQuery_chain2 A B idx L R .symdiff hA hB hL hR
    rw [show applyOp .symdiff L R = (L \ R) ∪ (R \ L) from rfl,
      symdiff_as_union_sdiff_inter] at h
    exact h

/-- Witness for C1: the spec's concrete scenario, `awesome_tag ↦ {1,2}`,
`cool_tag ↦ {2,3}`. -/
theorem c1_binary_query_set_algebra_witness :
    membersOf [("awesome_tag", ({1, 2} : Finset ℕ)), ("cool_tag", {2, 3})]
        "awesome_tag" = some {1, 2} ∧
    membersOf [("awesome_tag", ({1, 2} : Finset ℕ)), ("cool_tag", {2, 3})]
        "cool_tag" = some {2, 3} ∧
    (evaluateQuery ("awesome_tag" ++ "+" ++ "cool_tag")
        [("awesome_tag", {1, 2}), ("cool_tag", {2, 3})] =
        some (.ok (({1, 2} : Finset ℕ) ∪ {2, 3})) ∧
      evaluateQuery ("awesome_tag" ++ "&" ++ "cool_tag")
        [("awesome_tag", {1, 2}), ("cool_tag", {2, 3})] =
        some (.ok (({1, 2} : Finset ℕ) ∩ {2, 3})) ∧
      evaluateQuery ("awesome_tag" ++ "-" ++ "cool_tag")
        [("awesome_tag", {1, 2}), ("cool_tag", {2, 3})] =
        some (.ok (({1, 2} : Finset ℕ) \ {2, 3})) ∧
      evaluateQuery ("awesome_tag" ++ "^" ++ "cool_tag")
        [("awesome_tag", {1, 2}), ("cool_tag", {2, 3})] =
        some (.ok ((({1, 2} : Finset ℕ) ∪ {2, 3}) \ ({1, 2} ∩ {2, 3})))) :=
  ⟨by decide, by decide,
    c1_binary_query_set_algebra "awesome_tag" "cool_tag"
      [("awesome_tag", {1, 2}), ("cool_tag", {2, 3})] {1, 2} {2, 3}
      (by decide) (by decide) (by decide) (by decide)⟩

/-- C2 counterexample: the parse of `a^b+c` is right-nested
(`a^(b+c)`, because CPython gives `+` higher precedence than `^`), not the
left-associative `((a^b)+c)` the claim states; on the index
`a ↦ {1}, b ↦ ∅, c ↦ {1}` the two shapes evaluate to different sets. -/
theorem c2_counterexample :
    parseTagQuery "a^b+c" =
      some (.bin (.leaf "a") (.bin (.leaf "b") (.leaf "c") .union) .symdiff) ∧
    parseTagQuery "a^b+c" ≠
      some (.bin (.bin (.leaf "a") (.leaf "b") .symdiff) (.leaf "c") .union) ∧
    evaluateQuery "a^b+c" [("a", {1}), ("b", ∅), ("c", {1})] =
      some (.ok ∅) ∧
    (TagQuery.bin (.bin (.leaf "a") (.leaf "b") .symdiff) (.leaf "c") .union).eval
      [("a", {1}), ("b", ∅), ("c", {1})] = .ok {1} := by
  refine ⟨by decide, by decide, by decide, by decide⟩

/-- C2 (amended): a chain of three identifiers parses by CPython's
operator precedence — `+` and `-` bind more tightly than `&`, which binds
more tightly than `^` — nesting right exactly when the second operator
binds more tightly than the first, and associating left between operators
of equal precedence. -/
theorem c2_chain_parse_precedence (A B C : String) (o1 o2 : TagOp)
    (hA : isPyIdent A = true) (hB : isPyIdent B = true)
    (hC : isPyIdent C = true) :
    parseTagQuery (A ++ opStr o1 ++ B ++ opStr o2 ++ C) =
      some (if opPrec o1 < opPrec o2
        then .bin (.leaf A) (.bin (.leaf B) (.leaf C) o2) o1
        else .bin (.bin (.leaf A) (.leaf B) o1) (.leaf C) o2) :=
  parseTagQuery_chain3 A B C o1 o2 hA hB hC

/-- Witness for the amended C2: `x&y-z` parses as `x&(y-z)` (the `-`
binds more tightly), and `x-y+z` as `(x-y)+z` (equal precedence,
left-associative). -/
theorem c2_chain_parse_precedence_witness :
    isPyIdent "x" = true ∧
    parseTagQuery ("x" ++ opStr .intersect ++ "y" ++ opStr .diff ++ "z") =
      some (if opPrec .intersect < opPrec .diff
        then .bin (.leaf "x") (.bin (.leaf "y") (.leaf "z") .diff) .intersect
        else .bin (.bin (.leaf "x") (.leaf "y") .intersect) (.leaf "z") .diff) ∧
    parseTagQuery ("x" ++ opStr .diff ++ "y" ++ opStr .union ++ "z") =
      some (if opPrec .diff < opPrec .union
        then .bin (.leaf "x") (.bin (.leaf "y") (.leaf "z") .union) .diff
        else .bin (.bin (.leaf "x") (.leaf "y") .diff) (.leaf "z") .union) :=
  ⟨by decide,
    c2_chain_parse_precedence "x" "y" "z" .intersect .diff
      (by decide) (by decide) (by decide),
    c2_chain_parse_precedence "x" "y" "z" .diff .union
      (by decide) (by decide) (by decide)⟩

/-- C3: a query whose AST mentions a tag with no directory evaluates to an
`unknownTag` raise (naming some absent tag — the first absent leaf
evaluation reaches), never to an empty set; a single leaf naming a tag
that exists with no members evaluates successfully to `∅`. -/
theorem c3_unknown_tag_vs_empty_tag (q : TagQuery) (idx : TagIndex)
    (t e : String) (hmention : q.mentions t = true)
    (hmissing : membersOf idx t = none) (hempty : membersOf idx e = some ∅) :
    (∃ u, membersOf idx u = none ∧ q.eval idx = .error (.unknownTag u)) ∧
    TagQuery.eval (.leaf e) idx = .ok ∅ :=
  ⟨eval_error_of_missing_leaf q idx t hmention hmissing,
    by simp [TagQuery.eval, hempty]⟩

/-- Witness for C3: index with only the memberless tag `emptytag`; the
query `gone+emptytag` raises, the query `emptytag` returns `∅`. -/
theorem c3_unknown_tag_vs_empty_tag_witness :
    (TagQuery.bin (.leaf "gone") (.leaf "emptytag") .union).mentions "gone" = true ∧
    membersOf [("emptytag", (∅ : Finset ℕ))] "gone" = none ∧
    membersOf [("emptytag", (∅ : Finset ℕ))] "emptytag" = some ∅ ∧
    ((∃ u, membersOf [("emptytag", (∅ : Finset ℕ))] u = none ∧
        (TagQuery.bin (.leaf "gone") (.leaf "emptytag") .union).eval
          [("emptytag", (∅ : Finset ℕ))] = .error (.unknownTag u)) ∧
      TagQuery.eval (.leaf "emptytag") [("emptytag", (∅ : Finset ℕ))] = .ok ∅) :=
  ⟨by decide, by decide, by decide,
    c3_unknown_tag_vs_empty_tag
      (.bin (.leaf "gone") (.leaf "emptytag") .union)
      [("emptytag", (∅ : Finset ℕ))] "gone" "emptytag"
      (by decide) (by decide) (by decide)⟩

/-! ## Filesystem state (`tagged_fs.py`)

The driver keeps three top-level directories under its root (`tags`,
`files`, `action` by default), a persisted configuration file
(`config.json`: the three folder names and the inode counter), and
in-memory copies of those four values.  `tags` is the tag index embedded
above; `files` stores each inode's single file (the on-disk key is the
inode's decimal digits as nested directories — an injective function of
the inode, so we key the embedding by the inode directly) together with
its original filename and content bytes. -/

/-- Contents of `config.json` (`saveMetadataFile` / `loadMetadataFile`). -/
structure Metadata where
  tags_folder : String
  file_folder : String
  action_folder : String
  inode_counter : ℕ
deriving DecidableEq, Repr

/-- The observable state of one mounted `TaggedFS` instance: the in-memory
fields of the Python object plus the persistent directories and the
metadata file. -/
structure FS where
  tags_folder : String
  file_folder : String
  action_folder : String
  inode_counter : ℕ
  tags : TagIndex
  files : List (ℕ × String × List ℕ)
  metadataFile : Option Metadata
deriving DecidableEq

/-- Errors an operation surfaces: the `FuseOSError` errno values raised by
`tagged_fs.py` (`eexist`, `enotdir`, `enoent`, `eperm`, `einval`,
`ebadf`), plus the Python-level exceptions the code as written can raise
(`typeError` for unpacking `None`, `valueError`/`nameError` for parser
raises and unbound locals). -/
inductive FSError : Type
  | eexist | enotdir | enoent | eperm | einval | ebadf
  | typeError | valueError | nameError
deriving DecidableEq, Repr

/-- Operation results carry the state at raise time: a Python `raise`
aborts the call but keeps every mutation already performed. -/
abbrev FSResult (α : Type) := Except (FSError × FS) α

/-! ## Virtual path resolver (`utils.Path`) -/

/-- Python's `str.strip(c)`: drop `c` from both ends. -/
def stripChar (c : Char) (l : List Char) : List Char :=
  ((l.dropWhile (fun x => x == c)).reverse.dropWhile (fun x => x == c)).reverse

/-- Python's `str.split(c)` (one-character separator). -/
def splitOnChar (c : Char) : List Char → List (List Char)
  | [] => [[]]
  | x :: xs =>
    let r := splitOnChar c xs
    if x == c then [] :: r
    else
      match r with
      | [] => [[x]]
      | h :: t => (x :: h) :: t

/-- Path components, `utils.Path.__init__`:
`rel_path.strip('/').split('/')` (always at least one, possibly empty,
component). -/
def pathComponents (rel : String) : List String :=
  (splitOnChar '/' (stripChar '/' rel.data)).map (fun l => (⟨l⟩ : String))

/-- First component, `utils.Path.get_action` (`components[0]`; the list is
never empty). -/
def getAction (rel : String) : String := (pathComponents rel).headD ""

/-- Second component, `utils.Path.get_query` (`components[1]` when
present, else `None`). -/
def getQuery (rel : String) : Option String := (pathComponents rel)[1]?

/-- Modelled from the spec: `utils.Path.get_filename` is called throughout
`tagged_fs.py` but never defined in `utils.py`; §4.2 of the spec makes the
third path segment the filename when present. -/
def getFilename (rel : String) : Option String := (pathComponents rel)[2]?

/-! ## File store -/

/-- Lookup of an inode's stored (filename, content): the file found under
`files/<inode digits…>/` (`getInodeFilepath`). -/
def filesLookup (files : List (ℕ × String × List ℕ)) (i : ℕ) :
    Option (String × List ℕ) :=
  (files.find? (fun p => p.1 == i)).map (fun p => p.2)

/-- Enumeration of a Python `set` of inodes.  CPython's iteration order is
unspecified; the embedding fixes the ascending order.  Only
`getFilepath`'s first-match scan observes the order, and only when two
stored files share a filename. -/
def finsetAscList (s : Finset ℕ) : List ℕ :=
  (List.range (s.sup id + 1)).filter (fun n => decide (n ∈ s))

/-- Helper `getInodeFilepaths`: keep the inodes that have a stored file,
with the stored filename (ids without stored content are skipped). -/
def getInodeFilepaths (fs : FS) (inodes : List ℕ) : List (ℕ × String) :=
  inodes.filterMap (fun i => (filesLookup fs.files i).map (fun p => (i, p.1)))

/-- Helper `TaggedFS.getFilepath`: split the raw path into query and
filename (`EINVAL` when either is missing or empty), evaluate the query
(a parser raise propagates; an unknown tag raises `NotADirectoryError`,
errno `ENOTDIR`), then return the first resulting inode whose stored
filename matches, if any. -/
def getFilepath (fs : FS) (raw_path : String) : FSResult (Option (ℕ × String)) :=
  match getQuery raw_path, getFilename raw_path with
  | some query, some fname =>
    if query == "" || fname == "" then .error (.einval, fs)
    else
      match evaluateQuery query fs.tags with
      | none => .error (.valueError, fs)
      | some (.error _) => .error (.enotdir, fs)
      | some (.ok inodes) =>
        .ok ((getInodeFilepaths fs (finsetAscList inodes)).find?
          (fun p => p.2 == fname))
  | _, _ => .error (.einval, fs)

/-! ## Tag index operations -/

/-- Whether the tag's directory exists (`os.path.isdir(tags_folder/tag)`). -/
def tagExists (fs : FS) (t : String) : Bool :=
  (fs.tags.find? (fun p => p.1 == t)).isSome

/-- Helper `TaggedFS.addTag`: raise `EEXIST` when the tag directory
already exists, else create it empty (`os.makedirs`). -/
def addTag (fs : FS) (t : String) : FSResult FS :=
  if tagExists fs t then .error (.eexist, fs)
  else .ok { fs with tags := fs.tags ++ [(t, ∅)] }

/-- Helper `TaggedFS.removeTag`: raise `ENOTDIR` when the tag directory is
absent, else remove it with all its membership markers
(`shutil.rmtree`). -/
def removeTag (fs : FS) (t : String) : FSResult FS :=
  if tagExists fs t then
    .ok { fs with tags := fs.tags.filter (fun p => !(p.1 == t)) }
  else .error (.enotdir, fs)

/-- The tag loop of `TaggedFS.mkdir`: `for tag in tags: self.addTag(tag)`.
A raise partway keeps the tags already created. -/
def addTags (fs : FS) : List String → FSResult FS
  | [] => .ok fs
  | t :: ts =>
    match addTag fs t with
    | .ok fs1 => addTags fs1 ts
    | .error e => .error e

/-- Operation `TaggedFS.mkdir`: only valid inside the tags namespace
(else `EPERM`); requires at least one tag component (else `EINVAL`);
creates each tag in order with `addTag`. -/
def mkdir (fs : FS) (rel_path : String) : FSResult FS :=
  if getAction rel_path != fs.tags_folder then .error (.eperm, fs)
  else
    let tags := (pathComponents rel_path).tail
    if tags.isEmpty then .error (.einval, fs)
    else addTags fs tags

/-- Current members of a tag, defaulting to none for an absent tag. -/
def tagMembersD (fs : FS) (t : String) : Finset ℕ :=
  (membersOf fs.tags t).getD ∅

/-- Record a membership marker (`os.makedirs(tags_folder/t/<inode>)` on an
existing tag directory). -/
def addMarker (fs : FS) (t : String) (inode : ℕ) : FS :=
  { fs with
    tags := fs.tags.map (fun p => if p.1 == t then (p.1, insert inode p.2) else p) }

/-- The tag loop shared by `TaggedFS.create` and `TaggedFS.rename`: for
each tag, create its directory if absent, then `os.makedirs` the inode
marker — which raises `FileExistsError` (`EEXIST`) if the marker already
exists. -/
def addInodeToTags : FS → List String → ℕ → FSResult FS
  | fs, [], _ => .ok fs
  | fs, t :: ts, inode =>
    let fs1 := if tagExists fs t then fs
      else { fs with tags := fs.tags ++ [(t, ∅)] }
    if inode ∈ tagMembersD fs1 t then .error (.eexist, fs1)
    else addInodeToTags (addMarker fs1 t inode) ts inode

/-- Strip an inode's marker from every tag: the scan-all-tags loop of
`TaggedFS.unlink` and `TaggedFS.rename` (`os.rmdir` of the marker where
present), with its unbalanced parenthesis repaired. -/
def eraseInodeEverywhere (fs : FS) (inode : ℕ) : FS :=
  { fs with tags := fs.tags.map (fun p => (p.1, p.2.erase inode)) }

/-- Helper `TaggedFS.removeFile`: delete the inode's stored file
(`os.remove`, `ENOENT`/`FileNotFoundError` when absent).  As written the
source passes a `utils.Path` object where `os.remove` needs a path
string; embedded with that slip repaired. -/
def removeFile (fs : FS) (inode : ℕ) : FSResult FS :=
  match filesLookup fs.files inode with
  | some _ => .ok { fs with files := fs.files.filter (fun p => !(p.1 == inode)) }
  | none => .error (.enoent, fs)

/-! ## Operations on files -/

/-- Operation `TaggedFS.unlink`: locate the file by query + filename, strip
the inode from every tag, then delete its storage.  The source's own body
cannot run (the tag loop's line has an unbalanced parenthesis — a
`SyntaxError` — and `getFilepath` needs the undefined
`utils.Path.get_filename`); embedded with those slips repaired.  A lookup
miss returns `None`, which the tuple assignment `fpath, inode = …` turns
into a `TypeError`. -/
def unlink (fs : FS) (path : String) : FSResult FS :=
  match getFilepath fs path with
  | .error e => .error e
  | .ok none => .error (.typeError, fs)
  | .ok (some (inode, _)) => removeFile (eraseInodeEverywhere fs inode) inode

/-- Operation `TaggedFS.rename`: validate the new path's query component
(alphanumeric and `+` only, else `EBADF`), split the new tag list, locate
the file from the old path, strip its inode from every tag, then add a
marker under each new tag.  Embedded with the source's unbalanced
parenthesis and undefined-name slips (`Path`, missing `get_filename`)
repaired, but faithfully keeping its logic bug: the new tag list is
computed as `c.split("+")` where `c` is the character loop variable — so
it is the one-element list holding the LAST CHARACTER of the query
component, not `query.split("+")` (and when the query is empty, `c` is
unbound: `NameError`). -/
def rename (fs : FS) (old new : String) : FSResult FS :=
  match getQuery new with
  | none => .error (.typeError, fs)
  | some query =>
    if query.data.all (fun c => c.isAlphanum || c == '+') then
      match query.data.getLast? with
      | none => .error (.nameError, fs)
      | some lastc =>
        let new_tags := (splitOnChar '+' [lastc]).map (fun l => (⟨l⟩ : String))
        match getFilepath fs old with
        | .error e => .error e
        | .ok none => .error (.typeError, fs)
        | .ok (some (inode, _)) =>
          addInodeToTags (eraseInodeEverywhere fs inode) new_tags inode
    else .error (.ebadf, fs)

/-- Persisting the configuration, `TaggedFS.saveMetadataFile`: write the
three folder names and the inode counter to `config.json`. -/
def saveMetadataFile (fs : FS) : FS :=
  { fs with
    metadataFile :=
      some ⟨fs.tags_folder, fs.file_folder, fs.action_folder, fs.inode_counter⟩ }

/-- Operation `TaggedFS.create`: path must be `action/<query>/<filename>`
(else `ENOENT`), the query restricted to alphanumeric and `+` (else
`EBADF`); allocate the next inode and bump the counter, create the file's
storage, add the inode to every `+`-separated tag (creating absent tags),
and finally persist the metadata.  The source body cannot run as written
(`raw_path` and `Path` are unbound — `NameError` — `get_filename` is
undefined, and `addFile` opens `files/<digits>/<name>` without creating
the digit directories, so every call would raise `ENOENT`); embedded with
those slips repaired to the spec's create contract. -/
def create (fs : FS) (path : String) (_mode : ℕ) : FSResult FS :=
  let action := getAction path
  let query := (getQuery path).getD ""
  let filename := (getFilename path).getD ""
  if action != fs.action_folder || query == "" || filename == "" then
    .error (.enoent, fs)
  else if query.data.all (fun c => c.isAlphanum || c == '+') then
    let tags := (splitOnChar '+' query.data).map (fun l => (⟨l⟩ : String))
    let inode := fs.inode_counter
    let fs2 :=
      { fs with
        inode_counter := fs.inode_counter + 1
        files := fs.files ++ [(inode, filename, [])] }
    match addInodeToTags fs2 tags inode with
    | .ok fs3 => .ok (saveMetadataFile fs3)
    | .error e => .error e
  else .error (.ebadf, fs)

/-! ## Mount-time initialization -/

/-- Initialization `TaggedFS.initFilesystem`: recursively delete the tags,
files and action directories when they exist (`shutil.rmtree`), recreate
them empty, and persist the metadata. -/
def initFilesystem (fs : FS) : FS :=
  saveMetadataFile { fs with tags := [], files := [] }

/-- Mount, `TaggedFS.__init__`: when no metadata file exists, set the
default folder names and a zero counter and reinitialize the filesystem
(wiping the three directories); otherwise load the stored names and
counter, leaving the directories as found. -/
def tfsMount (fs : FS) : FS :=
  match fs.metadataFile with
  | none =>
    initFilesystem
      { fs with
        tags_folder := "tags"
        file_folder := "files"
        action_folder := "action"
        inode_counter := 0 }
  | some m =>
    { fs with
      tags_folder := m.tags_folder
      file_folder := m.file_folder
      action_folder := m.action_folder
      inode_counter := m.inode_counter }

/-! ## Byte-range I/O

Modelled from the spec: `TaggedFS.read` and `TaggedFS.write` as written
cannot run (`read` opens a `utils.Path` object and references the
undefined name `length`; both pass a file object where `os.lseek` needs a
file descriptor).  §4.4 of the spec gives the File Store contract the
bodies clearly intend — seek to `offset` then read `size` bytes (short
read at end of content) or write `data` (extending the content,
zero-filling any gap) — which is also what the repaired `open`/`lseek`/
`os.read`/`os.write` sequences do. -/

/-- Read `size` bytes at `offset` (short read past end of content). -/
def readRange (content : List ℕ) (offset size : ℕ) : List ℕ :=
  (content.drop offset).take size

/-- Write `data` at `offset`, extending and zero-filling as needed. -/
def writeRange (content : List ℕ) (offset : ℕ) (data : List ℕ) : List ℕ :=
  let padded := content ++ List.replicate (offset - content.length) 0
  padded.take offset ++ data ++ padded.drop (offset + data.length)

/-- Read from a stored file (`ENOENT` when the inode has no storage). -/
def readFile (fs : FS) (inode offset size : ℕ) : Except FSError (List ℕ) :=
  match filesLookup fs.files inode with
  | some pr => .ok (readRange pr.2 offset size)
  | none => .error .enoent

/-- Write to a stored file, returning the new state and the count written
(`os.write` returns the number of bytes written). -/
def writeFile (fs : FS) (inode offset : ℕ) (data : List ℕ) :
    Except FSError (FS × ℕ) :=
  match filesLookup fs.files inode with
  | some _ =>
    .ok
      ({ fs with
          files := fs.files.map (fun p =>
            if p.1 == inode then (p.1, p.2.1, writeRange p.2.2 offset data) else p) },
        data.length)
  | none => .error .enoent

/-! ## Lemmas about the filesystem operations -/

/-- Keeping only non-matching entries empties the matching lookup. -/
theorem find?_filter_ne (l : List (ℕ × String × List ℕ)) (i : ℕ) :
    (l.filter (fun p => !(p.1 == i))).find? (fun p => p.1 == i) = none := by
  rw [List.find?_eq_none]
  intro x hx
  have hmem := (List.mem_filter.mp hx).2
  simp only [Bool.not_eq_true', beq_eq_false_iff_ne] at hmem
  simp [hmem]

/-- A match in the first list is still found after appending. -/
theorem find?_append_isSome {α : Type} (p : α → Bool) (l1 l2 : List α)
    (h : (l1.find? p).isSome = true) : ((l1 ++ l2).find? p).isSome = true := by
  induction l1 with
  | nil => simp [List.find?] at h
  | cons a l1 ih =>
    by_cases ha : p a
    · simp [List.find?_cons, ha]
    · simp only [List.find?_cons, ha, Bool.false_eq_true, if_false] at h ⊢
      simp only [List.cons_append]
      rw [List.find?_cons_of_neg _ (by simp [ha])]
      exact ih h

/-- A successful `getFilepath` result is a stored file: its inode has
content, stored under the returned filename. -/
theorem getFilepath_ok_lookup (fs : FS) (path : String) (inode : ℕ)
    (fname : String) (h : getFilepath fs path = .ok (some (inode, fname))) :
    ∃ ct, filesLookup fs.files inode = some (fname, ct) := by
  unfold getFilepath at h
  split at h
  · next query fname2 =>
    split at h
    · exact absurd h (by simp)
    · split at h
      · exact absurd h (by simp)
      · exact absurd h (by simp)
      · next inodes heval =>
        simp only [Except.ok.injEq] at h
        have hmem := List.mem_of_find?_eq_some h
        obtain ⟨i, _, hmap⟩ := List.mem_filterMap.mp hmem
        obtain ⟨pr, hpr, heq⟩ := Option.map_eq_some'.mp hmap
        simp only [Prod.mk.injEq] at heq
        obtain ⟨h1, h2⟩ := heq
        subst h1
        exact ⟨pr.2, by rw [hpr, ← h2]⟩
  · exact absurd h (by simp)

/-- The first `a` elements of `a ++ b`. -/
theorem take_length_append {α : Type} (a b : List α) :
    (a ++ b).take a.length = a := by
  induction a with
  | nil => rfl
  | cons x a ih => simp [ih]

/-- Writing never changes which inodes store files, and rewrites exactly
the written inode's content. -/
theorem filesLookup_map_write (files : List (ℕ × String × List ℕ)) (inode : ℕ)
    (fname : String) (ct : List ℕ) (offset : ℕ) (data : List ℕ)
    (h : filesLookup files inode = some (fname, ct)) :
    filesLookup (files.map (fun p =>
        if p.1 == inode then (p.1, p.2.1, writeRange p.2.2 offset data) else p))
      inode = some (fname, writeRange ct offset data) := by
  induction files with
  | nil => simp [filesLookup] at h
  | cons q l ih =>
    unfold filesLookup at h ⊢
    by_cases hq : (q.1 == inode) = true
    · simp only [List.find?, List.map_cons, hq, if_true, Option.map,
        Option.some.injEq] at h ⊢
      simp [h]
    · have hq' : (q.1 == inode) = false := by simpa using hq
      simp only [List.find?, List.map_cons, hq', Bool.false_eq_true, if_false] at h ⊢
      exact ih h

/-- The shared tag loop of create/rename changes only the tag index. -/
theorem addInodeToTags_frame : ∀ (ts : List String) (fs : FS) (inode : ℕ)
    (fs' : FS), addInodeToTags fs ts inode = .ok fs' →
    fs'.tags_folder = fs.tags_folder ∧ fs'.file_folder = fs.file_folder ∧
    fs'.action_folder = fs.action_folder ∧
    fs'.inode_counter = fs.inode_counter ∧ fs'.files = fs.files ∧
    fs'.metadataFile = fs.metadataFile := by
  intro ts
  induction ts with
  | nil =>
    intro fs inode fs' h
    simp only [addInodeToTags, Except.ok.injEq] at h
    subst h
    exact ⟨rfl, rfl, rfl, rfl, rfl, rfl⟩
  | cons t ts ih =>
    intro fs inode fs' h
    simp only [addInodeToTags] at h
    split at h <;> split at h
    all_goals
      first
        | exact absurd h (by simp)
        | (have frame := ih _ inode fs' h; exact frame)

/-! ## Claim theorems for the operation layer -/

/-- C4: a successful `unlink` leaves no tag holding a membership marker
for the removed inode, deletes the inode's stored content, and keeps
every tag directory in place (only the markers inside are removed). -/
theorem c4_unlink_no_dangling_membership (fs fs' : FS) (path : String)
    (inode : ℕ) (fname : String)
    (hfind : getFilepath fs path = .ok (some (inode, fname)))
    (hok : unlink fs path = .ok fs') :
    (∀ p ∈ fs'.tags, inode ∉ p.2) ∧
    filesLookup fs'.files inode = none ∧
    fs'.tags.map (fun p => p.1) = fs.tags.map (fun p => p.1) := by
  obtain ⟨ct, hlk⟩ := getFilepath_ok_lookup fs path inode fname hfind
  unfold unlink at hok
  rw [hfind] at hok
  change removeFile (eraseInodeEverywhere fs inode) inode = .ok fs' at hok
  unfold removeFile at hok
  rw [show (eraseInodeEverywhere fs inode).files = fs.files from rfl, hlk] at hok
  have hok2 : ({ eraseInodeEverywhere fs inode with
      files := (eraseInodeEverywhere fs inode).files.filter
        (fun p => !(p.1 == inode)) } : FS) = fs' := Except.ok.inj hok
  subst hok2
  refine ⟨?_, ?_, ?_⟩
  · intro p hp
    have hp' : p ∈ fs.tags.map (fun q => (q.1, q.2.erase inode)) := hp
    obtain ⟨q, _, rfl⟩ := List.mem_map.mp hp'
    exact Finset.not_mem_erase inode q.2
  · show filesLookup (fs.files.filter (fun p => !(p.1 == inode))) inode = none
    unfold filesLookup
    rw [find?_filter_ne]
    rfl
  · show (fs.tags.map (fun q => (q.1, q.2.erase inode))).map (fun p => p.1) =
      fs.tags.map (fun p => p.1)
    rw [List.map_map]
    rfl

/-- Concrete state for the C4 witness: inode 2 stored as `f`, tagged by
both `t1` and `t2`. -/
def c4fs : FS :=
  ⟨"tags", "files", "action", 3, [("t1", {2}), ("t2", {2})], [(2, "f", [7, 8])], none⟩

/-- State after `unlink c4fs "action/t1/f"`. -/
def c4res : FS :=
  ⟨"tags", "files", "action", 3, [("t1", ∅), ("t2", ∅)], [], none⟩

/-- Witness for C4: removing `f` via the query `t1` unlinks inode 2 from
both tags and deletes its content, while `t1` and `t2` survive. -/
theorem c4_unlink_no_dangling_membership_witness :
    getFilepath c4fs "action/t1/f" = .ok (some (2, "f")) ∧
    unlink c4fs "action/t1/f" = .ok c4res ∧
    ((∀ p ∈ c4res.tags, 2 ∉ p.2) ∧
      filesLookup c4res.files 2 = none ∧
      c4res.tags.map (fun p => p.1) = c4fs.tags.map (fun p => p.1)) :=
  ⟨by decide, by decide,
    c4_unlink_no_dangling_membership c4fs c4res "action/t1/f" 2 "f"
      (by decide) (by decide)⟩

/-- Concrete state for C5: inode 7 stored as `f` with content `[1,2,3]`,
tagged `t1`. -/
def c5fs : FS :=
  ⟨"tags", "files", "action", 9, [("t1", {7})], [(7, "f", [1, 2, 3])], none⟩

/-- What `rename` actually produces for the new path
`action/ab+cd/f`: membership under the single tag `d` — the last
character of the query — with `ab` and `cd` never created. -/
def c5res : FS :=
  ⟨"tags", "files", "action", 9, [("t1", ∅), ("d", {7})], [(7, "f", [1, 2, 3])], none⟩

/-- C5, evaluated at the failing input: renaming to tag set `ab+cd`
leaves the file's membership as `{d}` (the last character of the query,
because the source splits the loop variable `c` instead of `query`) —
not `{ab, cd}` as the claim states; the inode and content are indeed
untouched. -/
theorem c5_rename_tags_with_last_character :
    rename c5fs "action/t1/f" "action/ab+cd/f" = .ok c5res ∧
    membersOf c5res.tags "ab" = none ∧
    membersOf c5res.tags "cd" = none ∧
    membersOf c5res.tags "d" = some {7} ∧
    c5res.files = c5fs.files :=
  ⟨by decide, by decide, by decide, by decide, by decide⟩

/-- C6: writing `B` at offset 0 of a stored file and reading
`B.length` bytes at offset 0 returns exactly `B`; and every read is a
total function whose result is truncated at content length (`min`), never
an error. -/
theorem c6_write_read_roundtrip_short_read (fs : FS) (inode : ℕ)
    (fname : String) (ct B : List ℕ)
    (h : filesLookup fs.files inode = some (fname, ct)) :
    (∃ fs', writeFile fs inode 0 B = .ok (fs', B.length) ∧
      readFile fs' inode 0 B.length = .ok B) ∧
    (∀ off sz, (readRange ct off sz).length = min sz (ct.length - off)) := by
  constructor
  · refine ⟨{ fs with files := fs.files.map (fun p =>
      if p.1 == inode then (p.1, p.2.1, writeRange p.2.2 0 B) else p) }, ?_, ?_⟩
    · unfold writeFile
      rw [h]
    · unfold readFile
      rw [show ({ fs with files := fs.files.map (fun p =>
          if p.1 == inode then (p.1, p.2.1, writeRange p.2.2 0 B) else p) } : FS).files =
          fs.files.map (fun p =>
            if p.1 == inode then (p.1, p.2.1, writeRange p.2.2 0 B) else p) from rfl,
        filesLookup_map_write fs.files inode fname ct 0 B h]
      have hr : readRange (writeRange ct 0 B) 0 B.length = B := by
        unfold readRange writeRange
        simp only [Nat.zero_sub, List.replicate_zero, List.append_nil,
          List.take_zero, List.nil_append, List.drop_zero, Nat.zero_add]
        exact take_length_append B _
      show Except.ok (readRange (writeRange ct 0 B) 0 B.length) = Except.ok B
      rw [hr]
  · intro off sz
    simp [readRange]

/-- Concrete state for the C6 witness: inode 0 stored as `f` with two
bytes of content. -/
def c6fs : FS :=
  ⟨"tags", "files", "action", 1, [("t", {0})], [(0, "f", [9, 9])], none⟩

/-- Witness for C6 at inode 0 with `B = [1,2,3]`. -/
theorem c6_write_read_roundtrip_short_read_witness :
    filesLookup c6fs.files 0 = some ("f", [9, 9]) ∧
    ((∃ fs', writeFile c6fs 0 0 [1, 2, 3] = .ok (fs', [1, 2, 3].length) ∧
        readFile fs' 0 0 [1, 2, 3].length = .ok [1, 2, 3]) ∧
      (∀ off sz, (readRange [9, 9] off sz).length = min sz ([9, 9].length - off))) :=
  ⟨by decide,
    c6_write_read_roundtrip_short_read c6fs 0 "f" [9, 9] [1, 2, 3] (by decide)⟩

/-- C7: creating a tag that already exists raises `EEXIST`
(AlreadyExists) and removing an absent tag raises the missing-tag error
(`ENOTDIR`, the spec's NotFound kind); both raise before mutating, so the
error carries the unchanged state. -/
theorem c7_duplicate_and_missing_tag_errors (fs : FS) (t u : String)
    (hp : tagExists fs t = true) (ha : tagExists fs u = false) :
    addTag fs t = .error (.eexist, fs) ∧ removeTag fs u = .error (.enotdir, fs) :=
  ⟨by simp [addTag, hp], by simp [removeTag, ha]⟩

/-- Concrete state for the C7 witness. -/
def c7fs : FS :=
  ⟨"tags", "files", "action", 0, [("t", {1})], [], none⟩

/-- Witness for C7: `t` exists, `missing` does not. -/
theorem c7_duplicate_and_missing_tag_errors_witness :
    tagExists c7fs "t" = true ∧ tagExists c7fs "missing" = false ∧
    (addTag c7fs "t" = .error (.eexist, c7fs) ∧
      removeTag c7fs "missing" = .error (.enotdir, c7fs)) :=
  ⟨by decide, by decide,
    c7_duplicate_and_missing_tag_errors c7fs "t" "missing" (by decide) (by decide)⟩

/-- C8: a successful `create` bumps the inode counter by exactly one and
persists the bumped counter to the metadata file before returning; and
`unlink` never touches the counter (so a deleted inode, which is below
the counter, can never be allocated again within the instance). -/
theorem c8_inode_counter_monotonic_persisted :
    (∀ (fs : FS) (p : String) (m : ℕ) (fs' : FS), create fs p m = .ok fs' →
      fs'.inode_counter = fs.inode_counter + 1 ∧
      fs'.metadataFile = some ⟨fs.tags_folder, fs.file_folder,
        fs.action_folder, fs.inode_counter + 1⟩) ∧
    (∀ (fs : FS) (p : String) (fs' : FS), unlink fs p = .ok fs' →
      fs'.inode_counter = fs.inode_counter ∧
      fs'.metadataFile = fs.metadataFile) := by
  constructor
  · intro fs p m fs' h
    simp only [create] at h
    split at h
    · exact absurd h (by simp)
    · split at h
      · split at h
        · next fs3 hadd =>
          obtain ⟨htf, hff, haf, hic, hfi, hmd⟩ :=
            addInodeToTags_frame _ _ _ _ hadd
          simp only [Except.ok.injEq] at h
          subst h
          constructor
          · show fs3.inode_counter = fs.inode_counter + 1
            rw [hic]
          · show some (⟨fs3.tags_folder, fs3.file_folder, fs3.action_folder,
                fs3.inode_counter⟩ : Metadata) = some ⟨fs.tags_folder,
                fs.file_folder, fs.action_folder, fs.inode_counter + 1⟩
            rw [htf, hff, haf, hic]
        · exact absurd h (by simp)
      · exact absurd h (by simp)
  · intro fs p fs' h
    unfold unlink at h
    split at h
    · exact absurd h (by simp)
    · exact absurd h (by simp)
    · unfold removeFile at h
      split at h
      · simp only [Except.ok.injEq] at h
        subst h
        exact ⟨rfl, rfl⟩
      · exact absurd h (by simp)

/-- Concrete state for the C8 witness: counter at 5. -/
def c8fs : FS := ⟨"tags", "files", "action", 5, [], [], none⟩

/-- Result of `create c8fs "action/t5/f" 420`: inode 5 allocated, counter
6, metadata persisted with 6. -/
def c8res : FS :=
  ⟨"tags", "files", "action", 6, [("t5", {5})], [(5, "f", [])],
    some ⟨"tags", "files", "action", 6⟩⟩

/-- Witness for C8. -/
theorem c8_inode_counter_monotonic_persisted_witness :
    create c8fs "action/t5/f" 420 = .ok c8res ∧
    c8res.inode_counter = c8fs.inode_counter + 1 ∧
    c8res.metadataFile = some ⟨c8fs.tags_folder, c8fs.file_folder,
      c8fs.action_folder, c8fs.inode_counter + 1⟩ :=
  have h : create c8fs "action/t5/f" 420 = .ok c8res := by decide
  ⟨h,
    (c8_inode_counter_monotonic_persisted.1 c8fs "action/t5/f" 420 c8res h).1,
    (c8_inode_counter_monotonic_persisted.1 c8fs "action/t5/f" 420 c8res h).2⟩

/-- Concrete state for C9: tag `b` exists, `a` does not. -/
def c9fs : FS := ⟨"tags", "files", "action", 0, [("b", ∅)], [], none⟩

/-- The state `mkdir c9fs "tags/a/b"` reports its error with: tag `a` has
been created and persists. -/
def c9err : FS := ⟨"tags", "files", "action", 0, [("b", ∅), ("a", ∅)], [], none⟩

/-- C9 counterexample: `mkdir` over the tags `a` (absent) and `b`
(present) reports `EEXIST`, yet the observable state has changed — tag
`a` was created before the error and remains.  The failing operation is
not atomic. -/
theorem c9_mkdir_not_atomic_counterexample :
    mkdir c9fs "tags/a/b" = .error (.eexist, c9err) ∧ c9err ≠ c9fs :=
  ⟨by decide, by decide⟩

/-- C9 (amended): multi-tag `mkdir` applies `addTag` sequentially, so
when a later tag already exists the `EEXIST` error is reported with every
tag before it already created and persisting; operations that fail before
their first mutation (`addTag` on a present tag, `removeTag` on an absent
one) do leave the state unchanged. -/
theorem c9_mkdir_error_keeps_created_prefix (fs : FS) (t1 t2 : String)
    (h1 : tagExists fs t1 = false) (h2 : tagExists fs t2 = true) :
    addTags fs [t1, t2] =
      .error (.eexist, { fs with tags := fs.tags ++ [(t1, ∅)] }) ∧
    (∀ (g : FS) (t : String) (e : FSError × FS), addTag g t = .error e → e.2 = g) ∧
    (∀ (g : FS) (t : String) (e : FSError × FS), removeTag g t = .error e → e.2 = g) := by
  refine ⟨?_, ?_, ?_⟩
  · have step1 : addTag fs t1 = .ok { fs with tags := fs.tags ++ [(t1, ∅)] } := by
      simp [addTag, h1]
    have hx2 : tagExists { fs with tags := fs.tags ++ [(t1, ∅)] } t2 = true := by
      unfold tagExists at h2 ⊢
      exact find?_append_isSome _ fs.tags [(t1, ∅)] h2
    have step2 : addTag { fs with tags := fs.tags ++ [(t1, ∅)] } t2 =
        .error (.eexist, { fs with tags := fs.tags ++ [(t1, ∅)] }) := by
      simp [addTag, hx2]
    simp [addTags, step1, step2]
  · intro g t e h
    unfold addTag at h
    split at h
    · simp only [Except.error.injEq] at h
      rw [← h]
    · exact absurd h (by simp)
  · intro g t e h
    unfold removeTag at h
    split at h
    · exact absurd h (by simp)
    · simp only [Except.error.injEq] at h
      rw [← h]

/-- Witness for the amended C9, on the counterexample state. -/
theorem c9_mkdir_error_keeps_created_prefix_witness :
    tagExists c9fs "a" = false ∧ tagExists c9fs "b" = true ∧
    (addTags c9fs ["a", "b"] =
        .error (.eexist, { c9fs with tags := c9fs.tags ++ [("a", ∅)] }) ∧
      (∀ (g : FS) (t : String) (e : FSError × FS),
        addTag g t = .error e → e.2 = g) ∧
      (∀ (g : FS) (t : String) (e : FSError × FS),
        removeTag g t = .error e → e.2 = g)) :=
  ⟨by decide, by decide,
    c9_mkdir_error_keeps_created_prefix c9fs "a" "b" (by decide) (by decide)⟩

/-- C10: when the configuration file is absent at mount time, the mount
does not merely reset the in-memory names and counter — it wipes the tag
index and the file store entirely (whatever they held) and persists fresh
default metadata. -/
theorem c10_missing_config_wipes_state (fs : FS) (h : fs.metadataFile = none) :
    (tfsMount fs).tags = [] ∧ (tfsMount fs).files = [] ∧
    (tfsMount fs).inode_counter = 0 ∧
    (tfsMount fs).metadataFile = some ⟨"tags", "files", "action", 0⟩ := by
  unfold tfsMount
  rw [h]
  exact ⟨rfl, rfl, rfl, rfl⟩

/-- Concrete state for the C10 witness: a populated filesystem with no
config file. -/
def c10fs : FS := ⟨"tg", "fl", "ac", 7, [("x", {1})], [(1, "f", [9])], none⟩

/-- Witness for C10: a nonempty tag index and file store are destroyed. -/
theorem c10_missing_config_wipes_state_witness :
    c10fs.metadataFile = none ∧
    ((tfsMount c10fs).tags = [] ∧ (tfsMount c10fs).files = [] ∧
      (tfsMount c10fs).inode_counter = 0 ∧
      (tfsMount c10fs).metadataFile = some ⟨"tags", "files", "action", 0⟩) :=
  ⟨by decide, c10_missing_config_wipes_state c10fs (by decide)⟩

end TaggedFs
